import Mathlib

/-!
Shallow embedding of the core logic of the `rezipee` recipe planner
(`gousto_planner.py`): the shopping-list aggregation and costing engine,
the ingredient price index with its change history, and the recommendation
scorer.  Tabular rows become Lean structures, pandas pipelines become list
functions, Python floats become `ℚ`, and fallible Python code (code paths
that can raise, such as integer division by zero) returns `Option`.
-/

namespace Rezipee

/-- Python's `str.lower()`, written at the character-list level so that it
evaluates by kernel reduction (the names in this repository are ASCII). -/
def lowerStr (s : String) : String := String.mk (s.data.map Char.toLower)

/-- Python's built-in `abs` on a number. -/
def ratAbs (q : ℚ) : ℚ := if q < 0 then -q else q

/-- The parse status of the free-form `rating` column, mirroring the guard
`if rating and str(rating).strip() and rating != ''` followed by
`float(rating)` inside a `try/except` in `get_recipe_recommendations`:
the cell is empty/whitespace (guard fails), a string `float` rejects
(the `except: pass` branch), or a number. -/
inductive RatingField where
  | blank : RatingField
  | invalid : String → RatingField
  | value : ℚ → RatingField
deriving Repr, DecidableEq

/-- One row of `recipes.csv`: one ingredient line of a recipe, with the
recipe-level columns the core logic reads (`servings`, `rating`,
`cook_time`). -/
structure RecipeLine where
  recipe_name : String
  ingredient : String
  quantity : ℚ
  unit : String
  category : String
  servings : ℤ
  rating : RatingField
  cook_time : String
deriving Repr, DecidableEq

/-- One row of `meal_history.csv`; `week_start` is a calendar date counted
in whole days (the embedding of a `pd.Timestamp` at day granularity). -/
structure MealHistoryRow where
  week_start : ℤ
  recipe_name : String
deriving Repr, DecidableEq

/-- One row of `ingredient_pricing.csv` (the `last_updated` timestamp plays
no role in any computation modelled here). -/
structure PriceRow where
  ingredient : String
  unit : String
  price_per_unit : ℚ
deriving Repr, DecidableEq

/-- One row of `price_history.csv` (minus the wall-clock `changed_at`
column, which carries no computational content). -/
structure PriceHistoryEntry where
  ingredient : String
  unit : String
  old_price : ℚ
  new_price : ℚ
deriving Repr, DecidableEq

/-- The case-insensitive `(ingredient, unit)` lookup used everywhere in the
source:
`pricing[(pricing['ingredient'].str.lower() == ing.lower()) & (pricing['unit'].str.lower() == unit.lower())]`
followed by `.iloc[0]`, i.e. the first matching row. -/
def findPrice (pricing : List PriceRow) (ing u : String) : Option PriceRow :=
  pricing.find? (fun p =>
    lowerStr p.ingredient == lowerStr ing && lowerStr p.unit == lowerStr u)

/-- `lookup(ingredient, unit) -> price_per_unit`, defaulting to `0` when no
row matches (the `else 0` arm of the `shopping_list['price_per_unit']`
assignment). -/
def priceLookup (pricing : List PriceRow) (ing u : String) : ℚ :=
  match findPrice pricing ing u with
  | some p => p.price_per_unit
  | none => 0

/-- The history rows `save_pricing` appends for one row of the saved table.
The whole comparison block is guarded by `if not existing_pricing.empty:`,
so an empty (or absent) previously-persisted table produces no entries; a
matched prior row produces an entry only when
`abs(float(old) - float(new)) > 0.001`; an unmatched row produces an entry
with `old_price = 0.0`. -/
def rowHistory (existing : List PriceRow) (row : PriceRow) : List PriceHistoryEntry :=
  if existing.isEmpty then []
  else
    match findPrice existing row.ingredient row.unit with
    | some e =>
        if mkRat 1 1000 < ratAbs (e.price_per_unit - row.price_per_unit) then
          [⟨row.ingredient, row.unit, e.price_per_unit, row.price_per_unit⟩]
        else []
    | none => [⟨row.ingredient, row.unit, 0, row.price_per_unit⟩]

/-- `save_pricing`'s effect on the price-history table: iterate the rows of
the saved table in order and append the produced entries to the loaded
history via `pd.concat`. -/
def save_pricing_history (existing df : List PriceRow)
    (history : List PriceHistoryEntry) : List PriceHistoryEntry :=
  history ++ df.flatMap (rowHistory existing)

/-- `servings_multipliers[recipe] = servings / default_servings` where
`default_servings = int(recipe_data.get('servings', 2))` is read from the
first recipe line (`.iloc[0]`).  Both a missing recipe (`.iloc[0]` raises
`IndexError`) and a zero base (`/` raises `ZeroDivisionError`) are
modelled as `none`. -/
def servings_multiplier (recipes : List RecipeLine) (name : String)
    (override : ℤ) : Option ℚ :=
  match recipes.find? (fun l => l.recipe_name == name) with
  | none => none
  | some r =>
      if r.servings = 0 then none
      else some ((override : ℚ) / (r.servings : ℚ))

/-- `cost_per_serving = meal_cost / sum(...)`: unguarded division, so a
zero total raises (`none`); otherwise the quotient. -/
def cost_per_serving (mealCost : ℚ) (totalServings : ℤ) : Option ℚ :=
  if totalServings = 0 then none
  else some (mealCost / (totalServings : ℚ))

/-- Recursion core of `firstDedup`, structural in a fuel argument so that
it evaluates by kernel reduction; the fuel never runs out when it starts
at the list's length. -/
def firstDedupGo {α : Type} [DecidableEq α] : ℕ → List α → List α
  | _, [] => []
  | 0, _ :: _ => []
  | Nat.succ n, x :: xs =>
      x :: firstDedupGo n (xs.filter (fun y => !(decide (y = x))))

/-- Keep the first occurrence of each element and drop later duplicates —
the order `pandas` `unique()` and `groupby` group keys use. -/
def firstDedup {α : Type} [DecidableEq α] (l : List α) : List α :=
  firstDedupGo l.length l

/-- Stable insertion step: place `x` at the first position whose element
`y` satisfies `le x y`. -/
def insertBy {α : Type} (le : α → α → Bool) (x : α) : List α → List α
  | [] => [x]
  | y :: ys => if le x y then x :: y :: ys else y :: insertBy le x ys

/-- Stable sort (insertion sort).  A stable sort's output is determined
uniquely by the comparison key, so this embeds Python's stable `sorted`
and the sorting `pandas` applies. -/
def sortBy {α : Type} (le : α → α → Bool) : List α → List α
  | [] => []
  | x :: xs => insertBy le x (sortBy le xs)

section ShoppingList

/-- `recipes[recipes["recipe_name"].isin(selected_recipes)]`. -/
def selectedLines (recipes : List RecipeLine) (selected : List String) : List RecipeLine :=
  recipes.filter (fun l => selected.contains l.recipe_name)

/-- The per-recipe quantity scaling
`selected_data.loc[selected_data["recipe_name"] == recipe, "quantity"] *= multiplier`,
applied for every selected recipe; `mult` is the `servings_multipliers`
mapping. -/
def scaleLines (lines : List RecipeLine) (mult : String → ℚ) : List RecipeLine :=
  lines.map (fun l => { l with quantity := l.quantity * mult l.recipe_name })

/-- The `groupby` key `(ingredient, unit, category)`. -/
def lineKey (l : RecipeLine) : String × String × String :=
  (l.ingredient, l.unit, l.category)

/-- Aggregated quantity of one group: `"quantity": "sum"`. -/
def groupSum (lines : List RecipeLine) (k : String × String × String) : ℚ :=
  ((lines.filter (fun l => decide (lineKey l = k))).map (·.quantity)).sum

/-- Lexicographic-by-code-point strict comparison on character lists —
Python's `<` on strings, written structurally so it kernel-evaluates. -/
def charsLt : List Char → List Char → Bool
  | [], [] => false
  | [], _ :: _ => true
  | _ :: _, [] => false
  | a :: as, b :: bs => decide (a < b) || (a == b && charsLt as bs)

/-- Python's `<` on strings. -/
def strLt (a b : String) : Bool := charsLt a.data b.data

/-- String comparison used for `sorted(...)` / `sort_values` on string
columns (`a ≤ b` as the negation of `b < a`). -/
def strLe (a b : String) : Bool := !(strLt b a)

/-- The aggregated `used_in_recipes` column:
`lambda x: ", ".join(sorted(set(x)))`, kept as the sorted de-duplicated
name list. -/
def groupNames (lines : List RecipeLine) (k : String × String × String) : List String :=
  sortBy strLe
    (firstDedup ((lines.filter (fun l => decide (lineKey l = k))).map (·.recipe_name)))

/-- One aggregated shopping-list group before pricing. -/
structure Group where
  ingredient : String
  unit : String
  category : String
  quantity : ℚ
  used_in : List String
deriving Repr, DecidableEq

/-- `pandas` `groupby(sort=True)` orders the groups by their key tuple. -/
def keyLe (a b : String × String × String) : Bool :=
  strLt a.1 b.1 ||
    (a.1 == b.1 && (strLt a.2.1 b.2.1 ||
      (a.2.1 == b.2.1 && strLe a.2.2 b.2.2)))

/-- The `groupby(["ingredient", "unit", "category"]).agg(...)` step: one
`Group` per distinct key, holding the summed quantity and the merged
recipe names. -/
def groupLines (lines : List RecipeLine) : List Group :=
  (sortBy keyLe (firstDedup (lines.map lineKey))).map (fun k =>
    ⟨k.1, k.2.1, k.2.2, groupSum lines k, groupNames lines k⟩)

/-- `.sort_values(by=["category", "ingredient"])` (a stable sort). -/
def groupLe (a b : Group) : Bool :=
  strLt a.category b.category ||
    (a.category == b.category && strLe a.ingredient b.ingredient)

/-- Grouped and display-sorted shopping-list rows. -/
def sortedGroups (lines : List RecipeLine) : List Group :=
  sortBy groupLe (groupLines lines)

/-- The pantry exclusion: only performed under
`if not pantry_staples.empty:`, and then drops every group whose
lower-cased ingredient is in the lower-cased pantry list (the unit is not
consulted). -/
def pantryFilter (pantry : List String) (gs : List Group) : List Group :=
  if pantry.isEmpty then gs
  else gs.filter (fun g => decide (lowerStr g.ingredient ∉ pantry.map lowerStr))

/-- One final shopping-list row after the pricing join. -/
structure ShoppingLine where
  category : String
  ingredient : String
  quantity : ℚ
  unit : String
  price_per_unit : ℚ
  item_cost : ℚ
  used_in_recipes : List String
deriving Repr, DecidableEq

/-- The full shopping-list pipeline of the Weekly Planner tab: filter the
selected recipes' lines, scale quantities, group and aggregate, sort,
exclude pantry staples, then attach `price_per_unit` (default `0`) and
`item_cost = quantity * price_per_unit`. -/
def shopping_list (recipes : List RecipeLine) (selected : List String)
    (mult : String → ℚ) (pantry : List String) (pricing : List PriceRow) :
    List ShoppingLine :=
  let scaled := scaleLines (selectedLines recipes selected) mult
  (pantryFilter pantry (sortedGroups scaled)).map (fun g =>
    let p := priceLookup pricing g.ingredient g.unit
    ⟨g.category, g.ingredient, g.quantity, g.unit, p, g.quantity * p, g.used_in⟩)

/-- `shopping_list_cost = shopping_list['item_cost'].sum()`. -/
def shopping_list_cost (sl : List ShoppingLine) : ℚ :=
  (sl.map (·.item_cost)).sum

/-- `items_without_price = shopping_list[shopping_list['price_per_unit'] == 0]`:
the rows flagged with the missing-price warning. -/
def items_without_price (sl : List ShoppingLine) : List ShoppingLine :=
  sl.filter (fun l => decide (l.price_per_unit = 0))

/-- One scaled line's contribution to the meal cost: the loop body adds
`quantity * price_per_unit` only `if not price_match.empty`. -/
def lineMealContrib (pricing : List PriceRow) (l : RecipeLine) : ℚ :=
  match findPrice pricing l.ingredient l.unit with
  | some p => l.quantity * p.price_per_unit
  | none => 0

/-- `meal_cost`: for each selected recipe, sum the priced contributions of
its scaled lines (`selected_data`, which still contains pantry staples),
then sum over the recipes. -/
def meal_cost (pricing : List PriceRow) (selected : List String)
    (scaled : List RecipeLine) : ℚ :=
  (selected.map (fun r =>
    ((scaled.filter (fun l => l.recipe_name == r)).map (lineMealContrib pricing)).sum)).sum

end ShoppingList

section Recommendations

/-- The data carried by one entry of the `reasons` list (the emoji/format
of the f-strings is presentation; the trigger and its payload are what the
scorer decides). -/
inductive Reason where
  | rated : ℚ → Reason
  | notCookedRecently : ℤ → Reason
  | favorite : ℕ → Reason
  | neverTried : Reason
  | quickMeal : Reason
deriving Repr, DecidableEq

/-- Character-list version of `pat.isPrefixOf xs`, written out so the
substring test below is self-contained. -/
def charsStartWith : List Char → List Char → Bool
  | _, [] => true
  | [], _ :: _ => false
  | x :: xs, p :: ps => x == p && charsStartWith xs ps

/-- `pat in s` for character lists. -/
def charsContain : List Char → List Char → Bool
  | [], pat => pat.isEmpty
  | x :: xs, pat => charsStartWith (x :: xs) pat || charsContain xs pat

/-- Python's substring test `pat in s`. -/
def containsSub (s pat : String) : Bool :=
  charsContain s.toList pat.toList

/-- The rating block: `score += rating_val * 10`, with a rated reason when
`rating_val >= 4`; empty and unparsable ratings contribute nothing. -/
def ratingContrib : RatingField → ℚ × List Reason
  | RatingField.value v => (v * 10, if 4 ≤ v then [Reason.rated v] else [])
  | _ => (0, [])

/-- `history_df[...]['week_start'].max()` over the rows matching the
recipe (meaningful only on a non-empty match list). -/
def lastCooked (rows : List MealHistoryRow) : ℤ :=
  ((rows.map (·.week_start)).max?).getD 0

/-- The cooked-before arm of the history block: `days_since > 60` adds 15
with a reason, `days_since < 14` subtracts 20, and independently
`times_cooked >= 3` adds 5 with a favorite reason. -/
def historyCore (times : ℕ) (days : ℤ) : ℚ × List Reason :=
  let a : ℚ × List Reason :=
    if 60 < days then (15, [Reason.notCookedRecently days])
    else if days < 14 then (-20, []) else (0, [])
  let b : ℚ × List Reason :=
    if 3 ≤ times then (5, [Reason.favorite times]) else (0, [])
  (a.1 + b.1, a.2 ++ b.2)

/-- The whole history block: an empty history table or no matching rows
give `+10` "never tried"; otherwise `historyCore` on the match count and
the days since the most recent `week_start`. -/
def historyContrib (hist : List MealHistoryRow) (now : ℤ) (name : String) :
    ℚ × List Reason :=
  if hist.isEmpty then (10, [Reason.neverTried])
  else
    let rows := hist.filter (fun h => h.recipe_name == name)
    if rows.isEmpty then (10, [Reason.neverTried])
    else historyCore rows.length (now - lastCooked rows)

/-- The quick-meal block: `'15' in cook_time or '20' in cook_time`. -/
def quickContrib (ct : String) : ℚ × List Reason :=
  if containsSub ct "15" || containsSub ct "20" then (5, [Reason.quickMeal])
  else (0, [])

/-- One recipe's score and reasons, accumulated in source order: rating
block, then history block, then quick-meal block. -/
def scoreRecipe (hist : List MealHistoryRow) (now : ℤ) (name : String)
    (rating : RatingField) (ct : String) : ℚ × List Reason :=
  let r := ratingContrib rating
  let h := historyContrib hist now name
  let q := quickContrib ct
  (r.1 + h.1 + q.1, r.2 ++ h.2 ++ q.2)

/-- One entry of the `recommendations` list. -/
structure Recommendation where
  recipe : String
  score : ℚ
  reasons : List Reason
deriving Repr, DecidableEq

/-- The unsorted `recommendations` list: one entry per
`recipes_df["recipe_name"].unique()` name in first-occurrence order,
scored from that recipe's first line (`.iloc[0]`). -/
def recommendationList (recipes : List RecipeLine) (hist : List MealHistoryRow)
    (now : ℤ) : List Recommendation :=
  (firstDedup (recipes.map (·.recipe_name))).filterMap (fun name =>
    (recipes.find? (fun l => l.recipe_name == name)).map (fun r =>
      let p := scoreRecipe hist now name r.rating r.cook_time
      { recipe := name, score := p.1, reasons := p.2 }))

/-- `sorted(recommendations, key=lambda x: x['score'], reverse=True)`:
stable descending order on the score alone. -/
def recLe (a b : Recommendation) : Bool := decide (b.score ≤ a.score)

/-- `get_recipe_recommendations`: score every distinct recipe, stable-sort
by score descending, return the first `top_n`. -/
def get_recipe_recommendations (recipes : List RecipeLine)
    (hist : List MealHistoryRow) (now : ℤ) (top_n : ℕ) : List Recommendation :=
  (sortBy recLe (recommendationList recipes hist now)).take top_n

end Recommendations

section ExampleData

/-- The "Pasta" line of the worked example: 200 g of pasta, base
servings 2. -/
def pastaLine1 : RecipeLine :=
  ⟨"Pasta", "Pasta", 200, "g", "Carbs", 2, RatingField.blank, ""⟩

/-- The "Tomato" line of the worked example: 2 items, base servings 2. -/
def pastaLine2 : RecipeLine :=
  ⟨"Pasta", "Tomato", 2, "item", "Vegetables", 2, RatingField.blank, ""⟩

/-- The worked-example recipe table. -/
def pastaRecipe : List RecipeLine := [pastaLine1, pastaLine2]

/-- A recipe line whose stored base servings is `0`. -/
def zeroServingsLine : RecipeLine :=
  ⟨"Stew", "Beef", 500, "g", "Protein", 0, RatingField.blank, ""⟩

/-- A recipe whose "Salt" line (a pantry staple) has quantity `0`. -/
def saltZeroRecipes : List RecipeLine :=
  [⟨"R", "Salt", 0, "g", "Spices", 2, RatingField.blank, ""⟩,
   ⟨"R", "Pasta", 100, "g", "Carbs", 2, RatingField.blank, ""⟩]

/-- The same recipe with one unit of "Salt" actually used. -/
def saltOneRecipes : List RecipeLine :=
  [⟨"R", "Salt", 1, "g", "Spices", 2, RatingField.blank, ""⟩,
   ⟨"R", "Pasta", 100, "g", "Carbs", 2, RatingField.blank, ""⟩]

/-- Prices for the salt/pasta examples: salt has a nonzero price. -/
def saltPricing : List PriceRow := [⟨"Salt", "g", 5⟩, ⟨"Pasta", "g", 2⟩]

/-- A meal history with three "Curry" entries, the most recent 70 days
before `now`. -/
def curryHistory (now : ℤ) : List MealHistoryRow :=
  [⟨now - 70, "Curry"⟩, ⟨now - 80, "Curry"⟩, ⟨now - 90, "Curry"⟩]

end ExampleData

section ListLemmas

theorem firstDedupGo_fuel {α : Type} [DecidableEq α] :
    (n : ℕ) → (l : List α) → l.length ≤ n →
      firstDedupGo n l = firstDedupGo l.length l
  | 0, [], _ => rfl
  | Nat.succ _, [], _ => rfl
  | 0, x :: xs, h => by simp at h
  | Nat.succ n, x :: xs, h => by
      have hx : (xs.filter (fun y => !(decide (y = x)))).length ≤ xs.length :=
        List.length_filter_le _ _
      have hn : xs.length ≤ n := by
        simpa using Nat.le_of_succ_le_succ h
      rw [List.length_cons, firstDedupGo, firstDedupGo,
        firstDedupGo_fuel n _ (le_trans hx hn),
        firstDedupGo_fuel xs.length _ hx]
termination_by n _ _ => n
decreasing_by
  · exact Nat.lt_succ_self n
  · exact Nat.lt_succ_of_le hn

theorem firstDedupGo_eq_firstDedup {α : Type} [DecidableEq α]
    (n : ℕ) (l : List α) (h : l.length ≤ n) : firstDedupGo n l = firstDedup l :=
  firstDedupGo_fuel n l h

/-- The defining equation of `firstDedup` on a cons cell. -/
theorem firstDedup_cons {α : Type} [DecidableEq α] (x : α) (xs : List α) :
    firstDedup (x :: xs) = x :: firstDedup (xs.filter (fun y => !(decide (y = x)))) := by
  show firstDedupGo (x :: xs).length (x :: xs) = _
  rw [List.length_cons, firstDedupGo,
    firstDedupGo_eq_firstDedup xs.length _ (List.length_filter_le _ _)]

theorem mem_firstDedup {α : Type} [DecidableEq α] (a : α) :
    (l : List α) → (a ∈ firstDedup l ↔ a ∈ l)
  | [] => by simp [firstDedup, firstDedupGo]
  | x :: xs => by
    have ih := mem_firstDedup a (xs.filter (fun y => !(decide (y = x))))
    rw [firstDedup_cons]
    simp only [List.mem_cons, ih, List.mem_filter, Bool.not_eq_eq_eq_not,
      Bool.not_true, decide_eq_false_iff_not]
    constructor
    · rintro (rfl | ⟨h, _⟩)
      · exact Or.inl rfl
      · exact Or.inr h
    · rintro (rfl | h)
      · exact Or.inl rfl
      · by_cases hx : a = x
        · exact Or.inl hx
        · exact Or.inr ⟨h, hx⟩
termination_by l => l.length
decreasing_by
  simpa using Nat.lt_succ_of_le (List.length_filter_le _ _)

theorem insertBy_perm {α : Type} (le : α → α → Bool) (x : α) :
    ∀ (l : List α), (insertBy le x l).Perm (x :: l) := by
  intro l
  induction l with
  | nil => simp [insertBy]
  | cons y ys ih =>
    rw [insertBy]
    by_cases h : le x y = true
    · simp [h]
    · simp only [h, if_false]
      exact (ih.cons y).trans (List.Perm.swap x y ys)

theorem sortBy_perm {α : Type} (le : α → α → Bool) :
    ∀ (l : List α), (sortBy le l).Perm l := by
  intro l
  induction l with
  | nil => simp [sortBy]
  | cons x xs ih =>
    rw [sortBy]
    exact (insertBy_perm le x (sortBy le xs)).trans (ih.cons x)

theorem pairwise_insertBy {α : Type} {le : α → α → Bool}
    (htot : ∀ a b, le a b = true ∨ le b a = true)
    (htrans : ∀ a b c, le a b = true → le b c = true → le a c = true)
    (x : α) : ∀ {l : List α}, l.Pairwise (fun a b => le a b = true) →
      (insertBy le x l).Pairwise (fun a b => le a b = true) := by
  intro l
  induction l with
  | nil => simp [insertBy]
  | cons y ys ih =>
    intro h
    rcases List.pairwise_cons.mp h with ⟨hy, hys⟩
    rw [insertBy]
    by_cases hxy : le x y = true
    · rw [if_pos hxy]
      refine List.pairwise_cons.mpr ⟨?_, h⟩
      intro z hz
      rcases List.mem_cons.mp hz with rfl | hz'
      · exact hxy
      · exact htrans _ _ _ hxy (hy z hz')
    · simp only [hxy, if_false]
      refine List.pairwise_cons.mpr ⟨?_, ih hys⟩
      intro z hz
      have hz' := (insertBy_perm le x ys).mem_iff.mp hz
      rcases List.mem_cons.mp hz' with rfl | hz''
      · rcases htot z y with h1 | h1
        · exact absurd h1 hxy
        · exact h1
      · exact hy z hz''

theorem pairwise_sortBy {α : Type} {le : α → α → Bool}
    (htot : ∀ a b, le a b = true ∨ le b a = true)
    (htrans : ∀ a b c, le a b = true → le b c = true → le a c = true) :
    ∀ (l : List α), (sortBy le l).Pairwise (fun a b => le a b = true) := by
  intro l
  induction l with
  | nil => simp [sortBy]
  | cons x xs ih =>
    rw [sortBy]
    exact pairwise_insertBy htot htrans x ih

theorem sum_map_filter_split {α : Type} (p : α → Bool) (f : α → ℚ) :
    ∀ (l : List α),
      ((l.filter p).map f).sum + ((l.filter (fun a => !(p a))).map f).sum
        = (l.map f).sum := by
  intro l
  induction l with
  | nil => simp
  | cons a l ih =>
    by_cases h : p a = true
    · rw [List.filter_cons_of_pos h, List.filter_cons_of_neg (by simp [h])]
      simp only [List.map_cons, List.sum_cons]
      rw [add_assoc, ih]
    · rw [List.filter_cons_of_neg (by simp [h]),
        List.filter_cons_of_pos (by simp [h])]
      simp only [List.map_cons, List.sum_cons]
      rw [add_left_comm, ih]

theorem sum_map_ite_zero (n : String) (c : ℚ) :
    ∀ (s : List String), s.Nodup → n ∈ s →
      (s.map (fun r => if n = r then c else 0)).sum = c := by
  intro s
  induction s with
  | nil => simp
  | cons x s ih =>
    intro hnd hm
    rcases List.mem_cons.mp hm with rfl | hm'
    · have hns : n ∉ s := (List.nodup_cons.mp hnd).1
      simp only [List.map_cons, List.sum_cons]
      have hz : (s.map (fun r => if n = r then c else 0)).sum = 0 := by
        apply List.sum_eq_zero
        intro v hv
        rcases List.mem_map.mp hv with ⟨r, hr, rfl⟩
        rw [if_neg]
        rintro rfl
        exact hns hr
      rw [hz, add_zero]
      simp
    · have hnx : n ≠ x := by
        rintro rfl
        exact (List.nodup_cons.mp hnd).1 hm'
      simp only [List.map_cons, List.sum_cons, if_neg hnx, zero_add]
      exact ih (List.nodup_cons.mp hnd).2 hm'

/-- Grouping a list by a key and summing `f` inside each group sums `f`
over the whole list: the groups of a `groupby` partition their input. -/
theorem sum_over_keys {α κ : Type} [DecidableEq κ] (key : α → κ) (f : α → ℚ) :
    (L : List α) →
      ((firstDedup (L.map key)).map
          (fun k => ((L.filter (fun b => decide (key b = k))).map f).sum)).sum
        = (L.map f).sum
  | [] => by simp [firstDedup]
  | a :: L => by
    have hrec := sum_over_keys key f (L.filter (fun b => !(decide (key b = key a))))
    have hlist : (L.map key).filter (fun y => !(decide (y = key a)))
        = (L.filter (fun b => !(decide (key b = key a)))).map key := by
      rw [List.map_filter]
      rfl
    rw [List.map_cons, firstDedup_cons, List.map_cons, List.sum_cons, hlist]
    rw [List.filter_cons_of_pos (by simp)]
    have htail : ∀ k ∈ firstDedup ((L.filter (fun b => !(decide (key b = key a)))).map key),
        (((a :: L).filter (fun b => decide (key b = k))).map f).sum
          = (((L.filter (fun b => !(decide (key b = key a)))).filter
              (fun b => decide (key b = k))).map f).sum := by
      intro k hk
      have hkne : k ≠ key a := by
        have hk2 := (mem_firstDedup k _).mp hk
        rcases List.mem_map.mp hk2 with ⟨b, hb, rfl⟩
        rcases List.mem_filter.mp hb with ⟨_, hdec⟩
        simpa using hdec
      rw [List.filter_cons_of_neg (by simpa using fun h => hkne h.symm)]
      rw [List.filter_filter]
      refine congrArg List.sum (congrArg (List.map f) ?_)
      apply List.filter_congr
      intro b _
      by_cases hb : key b = k
      · simp [hb, hkne]
      · simp [hb]
    rw [List.map_congr_left htail, hrec]
    have hsplit := sum_map_filter_split (fun b => decide (key b = key a)) f L
    simp only [List.map_cons, List.sum_cons]
    rw [add_assoc, hsplit]
termination_by L => L.length
decreasing_by
  simpa using Nat.lt_succ_of_le (List.length_filter_le _ _)

/-- Summing per selected recipe over the lines filtered to that recipe is
summing over all lines, provided the selection has no duplicates and every
line belongs to a selected recipe. -/
theorem sum_partition_names (f : RecipeLine → ℚ) :
    ∀ (L : List RecipeLine) (selected : List String), selected.Nodup →
      (∀ l ∈ L, l.recipe_name ∈ selected) →
      (selected.map (fun r =>
        ((L.filter (fun l => l.recipe_name == r)).map f).sum)).sum
        = (L.map f).sum := by
  intro L
  induction L with
  | nil => intro sel hnd _; simp
  | cons a L ih =>
    intro sel hnd hmem
    have hstep : ∀ r ∈ sel,
        (((a :: L).filter (fun l => l.recipe_name == r)).map f).sum
          = (if a.recipe_name = r then f a else 0)
            + ((L.filter (fun l => l.recipe_name == r)).map f).sum := by
      intro r _
      by_cases h : a.recipe_name = r
      · rw [List.filter_cons_of_pos (by simpa using h), if_pos h,
          List.map_cons, List.sum_cons]
      · rw [List.filter_cons_of_neg (by simpa using h), if_neg h, zero_add]
    rw [List.map_congr_left hstep, List.sum_map_add,
      sum_map_ite_zero a.recipe_name (f a) sel hnd
        (hmem a (List.mem_cons_self a L)),
      ih sel hnd (fun l hl => hmem l (List.mem_cons_of_mem a hl))]
    simp

end ListLemmas

section PipelineLemmas

theorem recLe_total : ∀ a b : Recommendation, recLe a b = true ∨ recLe b a = true := by
  intro a b
  simp only [recLe, decide_eq_true_eq]
  exact le_total b.score a.score

theorem recLe_trans : ∀ a b c : Recommendation,
    recLe a b = true → recLe b c = true → recLe a c = true := by
  intro a b c
  simp only [recLe, decide_eq_true_eq]
  exact fun h1 h2 => le_trans h2 h1

/-- Inserting an element whose score is `q` prepends it to the `q`-score
fibre: every element it jumps over has a strictly larger score. -/
theorem filter_insertBy_pos (x : Recommendation) (q : ℚ) (hx : x.score = q) :
    ∀ (l : List Recommendation),
      (insertBy recLe x l).filter (fun r => decide (r.score = q))
        = x :: l.filter (fun r => decide (r.score = q)) := by
  intro l
  induction l with
  | nil => simp [insertBy, hx]
  | cons y ys ih =>
    rw [insertBy]
    by_cases hxy : recLe x y = true
    · rw [if_pos hxy, List.filter_cons_of_pos (by simpa using hx)]
    · rw [if_neg hxy]
      have hyq : ¬(y.score = q) := by
        simp only [recLe, decide_eq_true_eq, not_le] at hxy
        subst hx
        exact ne_of_gt hxy
      rw [List.filter_cons_of_neg (by simpa using hyq), ih,
        List.filter_cons_of_neg (by simpa using hyq)]

/-- Inserting an element whose score is not `q` leaves the `q`-score fibre
unchanged. -/
theorem filter_insertBy_neg (x : Recommendation) (q : ℚ) (hx : ¬(x.score = q)) :
    ∀ (l : List Recommendation),
      (insertBy recLe x l).filter (fun r => decide (r.score = q))
        = l.filter (fun r => decide (r.score = q)) := by
  intro l
  induction l with
  | nil => simp [insertBy, hx]
  | cons y ys ih =>
    rw [insertBy]
    by_cases hxy : recLe x y = true
    · rw [if_pos hxy, List.filter_cons_of_neg (by simpa using hx)]
    · rw [if_neg hxy]
      by_cases hy : y.score = q
      · rw [List.filter_cons_of_pos (by simpa using hy), ih,
          List.filter_cons_of_pos (by simpa using hy)]
      · rw [List.filter_cons_of_neg (by simpa using hy), ih,
          List.filter_cons_of_neg (by simpa using hy)]

/-- Stability of the recommendation sort: each equal-score fibre of the
sorted list is exactly the fibre of the input, in input order. -/
theorem sortBy_filter_score (q : ℚ) :
    ∀ (l : List Recommendation),
      (sortBy recLe l).filter (fun r => decide (r.score = q))
        = l.filter (fun r => decide (r.score = q)) := by
  intro l
  induction l with
  | nil => rfl
  | cons x xs ih =>
    rw [sortBy]
    by_cases hx : x.score = q
    · rw [filter_insertBy_pos x q hx, ih,
        List.filter_cons_of_pos (by simpa using hx)]
    · rw [filter_insertBy_neg x q hx, ih,
        List.filter_cons_of_neg (by simpa using hx)]

theorem sum_sortedGroups (lines : List RecipeLine) (f : Group → ℚ) :
    ((sortedGroups lines).map f).sum = ((groupLines lines).map f).sum :=
  (List.Perm.map f (sortBy_perm groupLe (groupLines lines))).sum_eq

theorem sum_groupLines (lines : List RecipeLine) (f : Group → ℚ) :
    ((groupLines lines).map f).sum
      = ((firstDedup (lines.map lineKey)).map (fun k =>
          f ⟨k.1, k.2.1, k.2.2, groupSum lines k, groupNames lines k⟩)).sum := by
  unfold groupLines
  rw [List.map_map]
  exact (List.Perm.map _ (sortBy_perm keyLe (firstDedup (lines.map lineKey)))).sum_eq

/-- Summing `quantity * price` over the aggregated groups equals summing it
over the underlying lines: the group quantity is the sum of its lines'
quantities and the price depends only on the group key. -/
theorem sum_groups_price (pricing : List PriceRow) (lines : List RecipeLine) :
    ((sortedGroups lines).map
        (fun g => g.quantity * priceLookup pricing g.ingredient g.unit)).sum
      = (lines.map
          (fun l => l.quantity * priceLookup pricing l.ingredient l.unit)).sum := by
  rw [sum_sortedGroups, sum_groupLines]
  have hfibre : ∀ k ∈ firstDedup (lines.map lineKey),
      groupSum lines k * priceLookup pricing k.1 k.2.1
        = ((lines.filter (fun l => decide (lineKey l = k))).map
            (fun l => l.quantity * priceLookup pricing l.ingredient l.unit)).sum := by
    intro k _
    unfold groupSum
    rw [← List.sum_map_mul_right]
    refine congrArg List.sum (List.map_congr_left ?_)
    intro l hl
    have hk : lineKey l = k := by
      simpa using (List.mem_filter.mp hl).2
    rcases k with ⟨k1, k2, k3⟩
    unfold lineKey at hk
    simp only [Prod.mk.injEq] at hk
    simp [hk.1, hk.2.1]
  rw [List.map_congr_left hfibre]
  exact sum_over_keys lineKey _ lines

theorem lineMealContrib_eq (pricing : List PriceRow) (l : RecipeLine) :
    lineMealContrib pricing l = l.quantity * priceLookup pricing l.ingredient l.unit := by
  unfold lineMealContrib priceLookup
  cases h : findPrice pricing l.ingredient l.unit <;> simp

theorem scaled_names_mem (recipes : List RecipeLine) (sel : List String)
    (mult : String → ℚ) :
    ∀ l ∈ scaleLines (selectedLines recipes sel) mult, l.recipe_name ∈ sel := by
  intro l hl
  rcases List.mem_map.mp hl with ⟨l0, hl0, rfl⟩
  rcases List.mem_filter.mp hl0 with ⟨_, hc⟩
  exact List.mem_of_elem_eq_true hc

/-- `meal_cost` over scaled selected lines is the plain sum of
`quantity * looked-up price` over every scaled line (pantry staples
included), as long as the selection has no duplicate names. -/
theorem meal_cost_eq (pricing : List PriceRow) (recipes : List RecipeLine)
    (sel : List String) (mult : String → ℚ) (hnd : sel.Nodup) :
    meal_cost pricing sel (scaleLines (selectedLines recipes sel) mult)
      = ((scaleLines (selectedLines recipes sel) mult).map
          (fun l => l.quantity * priceLookup pricing l.ingredient l.unit)).sum := by
  unfold meal_cost
  have hfn : lineMealContrib pricing
      = fun l => l.quantity * priceLookup pricing l.ingredient l.unit :=
    funext (lineMealContrib_eq pricing)
  rw [hfn]
  exact sum_partition_names _ _ sel hnd (scaled_names_mem recipes sel mult)

theorem pantryFilter_eq (pantry : List String) (gs : List Group) :
    pantryFilter pantry gs
      = gs.filter (fun g => decide (lowerStr g.ingredient ∉ pantry.map lowerStr)) := by
  unfold pantryFilter
  cases pantry with
  | nil => simp
  | cons p ps => rfl

theorem sortedGroups_quantity (lines : List RecipeLine) :
    ∀ g ∈ sortedGroups lines,
      g.quantity = groupSum lines (g.ingredient, g.unit, g.category) := by
  intro g hg
  have hg1 : g ∈ groupLines lines :=
    ((sortBy_perm groupLe (groupLines lines)).mem_iff).mp hg
  unfold groupLines at hg1
  rcases List.mem_map.mp hg1 with ⟨k, _, rfl⟩
  rfl

theorem sortedGroups_quantity_nonneg (lines : List RecipeLine)
    (h : ∀ l ∈ lines, 0 ≤ l.quantity) :
    ∀ g ∈ sortedGroups lines, 0 ≤ g.quantity := by
  intro g hg
  rw [sortedGroups_quantity lines g hg]
  apply List.sum_nonneg
  intro x hx
  rcases List.mem_map.mp hx with ⟨l, hl, rfl⟩
  exact h l (List.mem_filter.mp hl).1

theorem priceLookup_nonneg (pricing : List PriceRow)
    (hp : ∀ p ∈ pricing, 0 ≤ p.price_per_unit) (ing u : String) :
    0 ≤ priceLookup pricing ing u := by
  unfold priceLookup
  cases h : findPrice pricing ing u with
  | none => exact le_refl 0
  | some p => exact hp p (List.mem_of_find?_eq_some h)

theorem shopping_list_map (recipes : List RecipeLine) (sel : List String)
    (mult : String → ℚ) (pantry : List String) (pricing : List PriceRow) :
    shopping_list recipes sel mult pantry pricing
      = (pantryFilter pantry
          (sortedGroups (scaleLines (selectedLines recipes sel) mult))).map
          (fun g =>
            ⟨g.category, g.ingredient, g.quantity, g.unit,
              priceLookup pricing g.ingredient g.unit,
              g.quantity * priceLookup pricing g.ingredient g.unit, g.used_in⟩) := rfl

/-- The shopping-list total is the sum of `quantity * price_per_unit` over
the output lines. -/
theorem shopping_cost_sum_qp (recipes : List RecipeLine) (sel : List String)
    (mult : String → ℚ) (pantry : List String) (pricing : List PriceRow) :
    shopping_list_cost (shopping_list recipes sel mult pantry pricing)
      = ((shopping_list recipes sel mult pantry pricing).map
          (fun x => x.quantity * x.price_per_unit)).sum := by
  unfold shopping_list_cost
  refine congrArg List.sum (List.map_congr_left ?_)
  intro x hx
  rw [shopping_list_map] at hx
  rcases List.mem_map.mp hx with ⟨g, _, rfl⟩
  rfl

/-- The shopping-list total as a sum over the pantry-surviving groups. -/
theorem shopping_list_cost_eq (recipes : List RecipeLine) (sel : List String)
    (mult : String → ℚ) (pantry : List String) (pricing : List PriceRow) :
    shopping_list_cost (shopping_list recipes sel mult pantry pricing)
      = (((sortedGroups (scaleLines (selectedLines recipes sel) mult)).filter
          (fun g => decide (lowerStr g.ingredient ∉ pantry.map lowerStr))).map
          (fun g => g.quantity * priceLookup pricing g.ingredient g.unit)).sum := by
  unfold shopping_list_cost
  rw [shopping_list_map, pantryFilter_eq, List.map_map]
  rfl

theorem excluded_pred_eq (pantry : List String) :
    (fun g : Group => !(decide (lowerStr g.ingredient ∉ pantry.map lowerStr)))
      = fun g : Group => decide (lowerStr g.ingredient ∈ pantry.map lowerStr) := by
  funext g
  by_cases h : lowerStr g.ingredient ∈ pantry.map lowerStr <;> simp [h]

/-- Meal cost splits into the shopping-list cost plus the summed cost of
the pantry-excluded groups. -/
theorem meal_cost_split (pricing : List PriceRow) (recipes : List RecipeLine)
    (sel : List String) (mult : String → ℚ) (pantry : List String)
    (hnd : sel.Nodup) :
    meal_cost pricing sel (scaleLines (selectedLines recipes sel) mult)
      = shopping_list_cost (shopping_list recipes sel mult pantry pricing)
        + (((sortedGroups (scaleLines (selectedLines recipes sel) mult)).filter
            (fun g => decide (lowerStr g.ingredient ∈ pantry.map lowerStr))).map
            (fun g => g.quantity * priceLookup pricing g.ingredient g.unit)).sum := by
  rw [meal_cost_eq pricing recipes sel mult hnd, ← sum_groups_price,
    shopping_list_cost_eq, ← excluded_pred_eq pantry]
  exact (sum_map_filter_split _ _ _).symm

end PipelineLemmas

section Claims

/-- Claim C1: for every non-empty set of selected recipes, no output
line's ingredient name case-insensitively matches any pantry staple name
(the unit plays no role in the exclusion), and the shopping-list cost
equals the sum of quantity × price_per_unit over exactly the output
lines. -/
theorem C1_shopping_list_pantry_and_cost
    (recipes : List RecipeLine) (selected : List String) (mult : String → ℚ)
    (pantry : List String) (pricing : List PriceRow)
    (hsel : selected ≠ []) :
    (∀ x ∈ shopping_list recipes selected mult pantry pricing,
      ∀ p ∈ pantry, lowerStr x.ingredient ≠ lowerStr p)
    ∧ shopping_list_cost (shopping_list recipes selected mult pantry pricing)
        = ((shopping_list recipes selected mult pantry pricing).map
            (fun x => x.quantity * x.price_per_unit)).sum := by
  refine ⟨?_, shopping_cost_sum_qp recipes selected mult pantry pricing⟩
  intro x hx p hp heq
  rw [shopping_list_map] at hx
  rcases List.mem_map.mp hx with ⟨g, hg, rfl⟩
  rw [pantryFilter_eq] at hg
  rcases List.mem_filter.mp hg with ⟨_, hdec⟩
  have hnotin : lowerStr g.ingredient ∉ pantry.map lowerStr := by
    simpa using hdec
  exact hnotin (List.mem_map.mpr ⟨p, hp, heq.symm⟩)

/-- Witness for C1 at a concrete input. -/
theorem C1_witness :
    (["Pasta"] : List String) ≠ []
    ∧ ((∀ x ∈ shopping_list pastaRecipe ["Pasta"] (fun _ => 1) ["Salt"] [],
        ∀ p ∈ ["Salt"], lowerStr x.ingredient ≠ lowerStr p)
      ∧ shopping_list_cost (shopping_list pastaRecipe ["Pasta"] (fun _ => 1) ["Salt"] [])
          = ((shopping_list pastaRecipe ["Pasta"] (fun _ => 1) ["Salt"] []).map
              (fun x => x.quantity * x.price_per_unit)).sum) :=
  ⟨by simp,
    C1_shopping_list_pantry_and_cost pastaRecipe ["Pasta"] (fun _ => 1)
      ["Salt"] [] (by simp)⟩

/-- Claim C2: every selected recipe's line quantities are scaled by
override ÷ base servings; an override equal to the stored base gives
multiplier 1 and leaves quantities unchanged, and the Pasta example with
base 2 and override 4 doubles every quantity (200 g → 400 g,
2 item → 4 item). -/
theorem C2_servings_scaling
    (recipes : List RecipeLine) (name : String) (r : RecipeLine)
    (hfind : recipes.find? (fun l => l.recipe_name == name) = some r)
    (hs : r.servings ≠ 0) :
    (∀ override : ℤ, servings_multiplier recipes name override
        = some ((override : ℚ) / (r.servings : ℚ)))
    ∧ servings_multiplier recipes name r.servings = some 1
    ∧ (∀ (lines : List RecipeLine) (mult : String → ℚ),
        (∀ l ∈ lines, mult l.recipe_name = 1) → scaleLines lines mult = lines)
    ∧ servings_multiplier pastaRecipe "Pasta" 4 = some 2
    ∧ scaleLines pastaRecipe (fun _ => 2)
        = [{ pastaLine1 with quantity := 400 }, { pastaLine2 with quantity := 4 }] := by
  have hmul : ∀ override : ℤ, servings_multiplier recipes name override
      = some ((override : ℚ) / (r.servings : ℚ)) := by
    intro override
    unfold servings_multiplier
    rw [hfind]
    show (if r.servings = 0 then (none : Option ℚ)
        else some ((override : ℚ) / (r.servings : ℚ)))
      = some ((override : ℚ) / (r.servings : ℚ))
    rw [if_neg hs]
  refine ⟨hmul, ?_, ?_, ?_, ?_⟩
  · rw [hmul r.servings, div_self (by exact_mod_cast hs)]
  · intro lines mult h
    unfold scaleLines
    have : ∀ l ∈ lines, { l with quantity := l.quantity * mult l.recipe_name } = l := by
      intro l hl
      rw [h l hl, mul_one]
    rw [List.map_congr_left this]
    exact List.map_id' lines
  · have h4 : servings_multiplier pastaRecipe "Pasta" 4
        = some ((((4:ℤ)) : ℚ) / (((2:ℤ)) : ℚ)) := rfl
    rw [h4]
    norm_num
  · show List.map _ _ = _
    simp only [pastaRecipe, List.map_cons, List.map_nil]
    norm_num [pastaLine1, pastaLine2]

/-- Witness for C2 at the Pasta example. -/
theorem C2_witness :
    (pastaRecipe.find? (fun l => l.recipe_name == "Pasta") = some pastaLine1)
    ∧ servings_multiplier pastaRecipe "Pasta" 2 = some 1 :=
  ⟨rfl,
    (C2_servings_scaling pastaRecipe "Pasta" pastaLine1 rfl (by decide)).2.1⟩

/-- Claim C3: for a saved price row whose case-insensitive
(ingredient, unit) key has a prior persisted entry, exactly one history
entry carrying the real old and new prices is appended when
|old − new| > 0.001, and none when the difference is at most 0.001. -/
theorem C3_price_change_history
    (existing : List PriceRow) (row e : PriceRow)
    (hfind : findPrice existing row.ingredient row.unit = some e) :
    (mkRat 1 1000 < ratAbs (e.price_per_unit - row.price_per_unit) →
      rowHistory existing row
        = [⟨row.ingredient, row.unit, e.price_per_unit, row.price_per_unit⟩])
    ∧ (ratAbs (e.price_per_unit - row.price_per_unit) ≤ mkRat 1 1000 →
      rowHistory existing row = [])
    ∧ ∀ (df : List PriceRow) (history : List PriceHistoryEntry),
        save_pricing_history existing df history
          = history ++ df.flatMap (rowHistory existing) := by
  have hne : existing.isEmpty = false := by
    cases existing with
    | nil => simp [findPrice] at hfind
    | cons a l => rfl
  refine ⟨?_, ?_, fun df history => rfl⟩
  · intro hgt
    unfold rowHistory
    rw [hne]
    simp only [Bool.false_eq_true, if_false]
    rw [hfind]
    show (if mkRat 1 1000 < ratAbs (e.price_per_unit - row.price_per_unit) then
        [(⟨row.ingredient, row.unit, e.price_per_unit, row.price_per_unit⟩ : PriceHistoryEntry)]
      else []) = _
    rw [if_pos hgt]
  · intro hle
    unfold rowHistory
    rw [hne]
    simp only [Bool.false_eq_true, if_false]
    rw [hfind]
    show (if mkRat 1 1000 < ratAbs (e.price_per_unit - row.price_per_unit) then
        [(⟨row.ingredient, row.unit, e.price_per_unit, row.price_per_unit⟩ : PriceHistoryEntry)]
      else []) = _
    rw [if_neg (not_lt.mpr hle)]

/-- Witness for C3: updating ("Tomato","item") from 1.00 to 1.50 appends
exactly one entry with the real prices; re-saving 1.50 appends none. -/
theorem C3_witness :
    (findPrice [⟨"Tomato", "item", 1⟩] "Tomato" "item" = some ⟨"Tomato", "item", 1⟩)
    ∧ rowHistory [⟨"Tomato", "item", 1⟩] ⟨"Tomato", "item", mkRat 3 2⟩
        = [⟨"Tomato", "item", 1, mkRat 3 2⟩]
    ∧ rowHistory [⟨"Tomato", "item", mkRat 3 2⟩] ⟨"Tomato", "item", mkRat 3 2⟩ = [] :=
  ⟨rfl,
    (C3_price_change_history [⟨"Tomato", "item", 1⟩] ⟨"Tomato", "item", mkRat 3 2⟩
      ⟨"Tomato", "item", 1⟩ rfl).1 (by norm_num [ratAbs, Rat.mkRat_eq_div]),
    (C3_price_change_history [⟨"Tomato", "item", mkRat 3 2⟩]
      ⟨"Tomato", "item", mkRat 3 2⟩ ⟨"Tomato", "item", mkRat 3 2⟩ rfl).2.1
      (by norm_num [ratAbs, Rat.mkRat_eq_div])⟩

/-- Claim C4 counterexample: when the previously persisted price table is
empty (or the file absent), saving a brand-new price appends no history
entry at all — the new-ingredient branch sits inside
`if not existing_pricing.empty:`, so the claimed old_price = 0.0 entry is
not produced. -/
theorem C4_counterexample :
    save_pricing_history [] [⟨"Tomato", "item", mkRat 3 2⟩] [] = []
    ∧ save_pricing_history [] [⟨"Tomato", "item", mkRat 3 2⟩] []
        ≠ [⟨"Tomato", "item", 0, mkRat 3 2⟩] := by
  have h1 : save_pricing_history [] [⟨"Tomato", "item", mkRat 3 2⟩] [] = [] := rfl
  exact ⟨h1, by rw [h1]; simp⟩

/-- Claim C4 (amended): a saved row whose key has no prior entry gets an
old_price = 0.0 history entry only when the previously persisted table is
non-empty; when that table is empty or absent, the save appends no history
entries at all. -/
theorem C4_first_price_history
    (existing : List PriceRow) (row : PriceRow)
    (hne : existing ≠ [])
    (hfind : findPrice existing row.ingredient row.unit = none) :
    rowHistory existing row = [⟨row.ingredient, row.unit, 0, row.price_per_unit⟩]
    ∧ ∀ (df : List PriceRow) (history : List PriceHistoryEntry),
        save_pricing_history [] df history = history := by
  constructor
  · unfold rowHistory
    have hemp : existing.isEmpty = false := by
      cases existing with
      | nil => exact absurd rfl hne
      | cons a l => rfl
    rw [hemp]
    simp only [Bool.false_eq_true, if_false]
    rw [hfind]
  · intro df history
    unfold save_pricing_history
    have hnil : df.flatMap (rowHistory []) = [] := by
      induction df with
      | nil => rfl
      | cons r df ih => rw [List.flatMap_cons, ih]; rfl
    rw [hnil, List.append_nil]

/-- Witness for the amended C4: with a non-empty prior table lacking the
key, a first-time price gets an old_price = 0 entry. -/
theorem C4_witness :
    ([⟨"Salt", "g", 1⟩] : List PriceRow) ≠ []
    ∧ rowHistory [⟨"Salt", "g", 1⟩] ⟨"Tomato", "item", mkRat 3 2⟩
        = [⟨"Tomato", "item", 0, mkRat 3 2⟩] :=
  ⟨by simp,
    (C4_first_price_history [⟨"Salt", "g", 1⟩] ⟨"Tomato", "item", mkRat 3 2⟩
      (by simp) rfl).1⟩

/-- Claim C5 counterexample: a recipe whose stored base servings is 0
makes the serving-ratio computation raise a `ZeroDivisionError`
(modelled as `none`) instead of treating the base as 1 (which would give
multiplier 4 here). -/
theorem C5_counterexample :
    servings_multiplier [zeroServingsLine] "Stew" 4 = none
    ∧ servings_multiplier [zeroServingsLine] "Stew" 4 ≠ some 4 := by
  have h1 : servings_multiplier [zeroServingsLine] "Stew" 4 = none := rfl
  exact ⟨h1, by rw [h1]; simp⟩

/-- Claim C5 (amended): the serving-ratio computation raises a
division-by-zero exactly when the recipe's stored base servings is 0 (the
source does not guard it, and a missing servings value defaults to 2, not
1); the cost-per-serving division never raises when the selection is
non-empty and every serving override is at least 1, as the UI enforces. -/
theorem C5_division_guards
    (recipes : List RecipeLine) (name : String) (override : ℤ) (r : RecipeLine)
    (hfind : recipes.find? (fun l => l.recipe_name == name) = some r) :
    (servings_multiplier recipes name override
        = if r.servings = 0 then none
          else some ((override : ℚ) / (r.servings : ℚ)))
    ∧ (∀ (mc : ℚ) (sel : List String) (ov : String → ℤ),
        sel ≠ [] → (∀ s ∈ sel, 1 ≤ ov s) →
        (cost_per_serving mc ((sel.map ov).sum)).isSome = true) := by
  constructor
  · unfold servings_multiplier
    rw [hfind]
  · intro mc sel ov hne hov
    have hall : ∀ x ∈ sel.map ov, (1:ℤ) ≤ x := by
      intro x hx
      rcases List.mem_map.mp hx with ⟨s, hs, rfl⟩
      exact hov s hs
    have hall0 : ∀ x ∈ sel.map ov, (0:ℤ) ≤ x :=
      fun x hx => le_trans zero_le_one (hall x hx)
    obtain ⟨a, ha⟩ : ∃ a, a ∈ sel := by
      cases sel with
      | nil => exact absurd rfl hne
      | cons a l => exact ⟨a, List.mem_cons_self a l⟩
    have hle : ov a ≤ (sel.map ov).sum :=
      List.single_le_sum hall0 _ (List.mem_map_of_mem ov ha)
    have h1 : (1:ℤ) ≤ ov a := hov a ha
    unfold cost_per_serving
    rw [if_neg (by omega)]
    rfl

/-- Witness for the amended C5 at concrete inputs. -/
theorem C5_witness :
    (pastaRecipe.find? (fun l => l.recipe_name == "Pasta") = some pastaLine1)
    ∧ (cost_per_serving 10 ((["Pasta"].map (fun _ => (4:ℤ))).sum)).isSome = true :=
  ⟨rfl,
    (C5_division_guards pastaRecipe "Pasta" 4 pastaLine1 rfl).2 10 ["Pasta"]
      (fun _ => 4) (by simp) (by decide)⟩

/-- Claim C6 counterexample: with "Salt" a pantry staple priced at 5 but
used in quantity 0, a pantry-excluded ingredient has a nonzero price yet
the meal cost and the shopping-list cost coincide (both are 200), so
"nonzero price of an excluded ingredient" does not by itself make the two
totals differ. -/
theorem C6_counterexample :
    priceLookup saltPricing "Salt" "g" ≠ 0
    ∧ (∃ g ∈ sortedGroups (scaleLines (selectedLines saltZeroRecipes ["R"]) (fun _ => 1)),
        lowerStr g.ingredient ∈ (["Salt"].map lowerStr))
    ∧ meal_cost saltPricing ["R"]
        (scaleLines (selectedLines saltZeroRecipes ["R"]) (fun _ => 1))
      = shopping_list_cost
          (shopping_list saltZeroRecipes ["R"] (fun _ => 1) ["Salt"] saltPricing) := by
  have hscale : scaleLines (selectedLines saltZeroRecipes ["R"]) (fun _ => 1)
      = saltZeroRecipes := by
    simp +decide [scaleLines, selectedLines, saltZeroRecipes]
  have hgroups : sortedGroups saltZeroRecipes
      = [⟨"Pasta", "g", "Carbs", 100, ["R"]⟩, ⟨"Salt", "g", "Spices", 0, ["R"]⟩] := by
    have h1 : firstDedup (saltZeroRecipes.map lineKey)
        = [("Salt", "g", "Spices"), ("Pasta", "g", "Carbs")] := by decide
    have h2 : sortBy keyLe
        [(("Salt", "g", "Spices") : String × String × String), ("Pasta", "g", "Carbs")]
        = [("Pasta", "g", "Carbs"), ("Salt", "g", "Spices")] := by decide
    have h3 : groupNames saltZeroRecipes ("Pasta", "g", "Carbs") = ["R"] := by decide
    have h4 : groupNames saltZeroRecipes ("Salt", "g", "Spices") = ["R"] := by decide
    have h5 : groupSum saltZeroRecipes ("Pasta", "g", "Carbs") = 100 := by
      simp +decide [groupSum, saltZeroRecipes, lineKey]
    have h6 : groupSum saltZeroRecipes ("Salt", "g", "Spices") = 0 := by
      simp +decide [groupSum, saltZeroRecipes, lineKey]
    have hgl : groupLines saltZeroRecipes
        = [⟨"Pasta", "g", "Carbs", 100, ["R"]⟩, ⟨"Salt", "g", "Spices", 0, ["R"]⟩] := by
      unfold groupLines
      rw [h1, h2, List.map_cons, List.map_cons, List.map_nil, h3, h4, h5, h6]
    unfold sortedGroups
    rw [hgl]
    have hle : groupLe (⟨"Pasta", "g", "Carbs", 100, ["R"]⟩ : Group)
        ⟨"Salt", "g", "Spices", 0, ["R"]⟩ = true := by decide
    simp [sortBy, insertBy, hle]
  refine ⟨by decide, ?_, ?_⟩
  · rw [hscale, hgroups]
    decide
  · have hshop : shopping_list saltZeroRecipes ["R"] (fun _ => 1) ["Salt"] saltPricing
        = [⟨"Carbs", "Pasta", 100, "g", 2, 200, ["R"]⟩] := by
      rw [shopping_list_map, hscale, hgroups]
      have hpf : pantryFilter ["Salt"]
          [(⟨"Pasta", "g", "Carbs", 100, ["R"]⟩ : Group), ⟨"Salt", "g", "Spices", 0, ["R"]⟩]
          = [⟨"Pasta", "g", "Carbs", 100, ["R"]⟩] := by decide
      rw [hpf]
      have hpr : priceLookup saltPricing "Pasta" "g" = 2 := by decide
      norm_num [hpr]
    have hmc : meal_cost saltPricing ["R"] saltZeroRecipes = 200 := by
      have e1 : (lowerStr "Pasta" == lowerStr "Salt") = false := by decide
      have e3 : (lowerStr "Pasta" == lowerStr "Pasta") = true := by decide
      have e4 : (lowerStr "g" == lowerStr "g") = true := by decide
      have e5 : (lowerStr "Salt" == lowerStr "Pasta") = false := by decide
      norm_num [meal_cost, saltPricing, saltZeroRecipes, lineMealContrib,
        findPrice, List.filter, List.find?, e1, e3, e4, e5]
    rw [hscale, hshop, hmc]
    simp [shopping_list_cost]

/-- Claim C6 (amended): for a duplicate-free selection, the meal cost is
the sum of quantity × price over all scaled selected lines including
pantry-excluded ones, the shopping cost is the sum of item_cost over the
output lines, and their difference is the summed cost of the
pantry-excluded groups; the totals are guaranteed to differ only when some
pantry-excluded group has positive quantity and positive price (with all
quantities and prices nonnegative) — a pantry-excluded ingredient with
nonzero price but zero aggregated quantity leaves them equal. -/
theorem C6_meal_cost_vs_shopping_cost
    (recipes : List RecipeLine) (selected : List String) (mult : String → ℚ)
    (pantry : List String) (pricing : List PriceRow)
    (hnd : selected.Nodup) :
    meal_cost pricing selected (scaleLines (selectedLines recipes selected) mult)
        = ((scaleLines (selectedLines recipes selected) mult).map
            (fun l => l.quantity * priceLookup pricing l.ingredient l.unit)).sum
    ∧ shopping_list_cost (shopping_list recipes selected mult pantry pricing)
        = ((shopping_list recipes selected mult pantry pricing).map
            (fun x => x.quantity * x.price_per_unit)).sum
    ∧ meal_cost pricing selected (scaleLines (selectedLines recipes selected) mult)
        - shopping_list_cost (shopping_list recipes selected mult pantry pricing)
        = (((sortedGroups (scaleLines (selectedLines recipes selected) mult)).filter
            (fun g => decide (lowerStr g.ingredient ∈ pantry.map lowerStr))).map
            (fun g => g.quantity * priceLookup pricing g.ingredient g.unit)).sum
    ∧ ((∀ l ∈ scaleLines (selectedLines recipes selected) mult, 0 ≤ l.quantity) →
        (∀ p ∈ pricing, 0 ≤ p.price_per_unit) →
        (∃ g ∈ sortedGroups (scaleLines (selectedLines recipes selected) mult),
          lowerStr g.ingredient ∈ pantry.map lowerStr ∧ 0 < g.quantity
            ∧ 0 < priceLookup pricing g.ingredient g.unit) →
        shopping_list_cost (shopping_list recipes selected mult pantry pricing)
          < meal_cost pricing selected
              (scaleLines (selectedLines recipes selected) mult)) := by
  refine ⟨meal_cost_eq pricing recipes selected mult hnd,
    shopping_cost_sum_qp recipes selected mult pantry pricing, ?_, ?_⟩
  · rw [meal_cost_split pricing recipes selected mult pantry hnd]
    ring
  · intro hq hp ⟨g, hg, hgmem, hgq, hgpr⟩
    have hsplit := meal_cost_split pricing recipes selected mult pantry hnd
    have hgD : g ∈ (sortedGroups (scaleLines (selectedLines recipes selected) mult)).filter
        (fun g => decide (lowerStr g.ingredient ∈ pantry.map lowerStr)) :=
      List.mem_filter.mpr ⟨hg, by simpa using hgmem⟩
    have hterm : g.quantity * priceLookup pricing g.ingredient g.unit
        ∈ ((sortedGroups (scaleLines (selectedLines recipes selected) mult)).filter
            (fun g => decide (lowerStr g.ingredient ∈ pantry.map lowerStr))).map
            (fun g => g.quantity * priceLookup pricing g.ingredient g.unit) :=
      List.mem_map_of_mem _ hgD
    have hall : ∀ x ∈ ((sortedGroups (scaleLines (selectedLines recipes selected) mult)).filter
        (fun g => decide (lowerStr g.ingredient ∈ pantry.map lowerStr))).map
        (fun g => g.quantity * priceLookup pricing g.ingredient g.unit), 0 ≤ x := by
      intro x hx
      rcases List.mem_map.mp hx with ⟨g2, hg2, rfl⟩
      have hg2' : g2 ∈ sortedGroups (scaleLines (selectedLines recipes selected) mult) :=
        (List.mem_filter.mp hg2).1
      exact mul_nonneg
        (sortedGroups_quantity_nonneg _ hq g2 hg2')
        (priceLookup_nonneg pricing hp _ _)
    have hpos : 0 < (((sortedGroups (scaleLines (selectedLines recipes selected) mult)).filter
        (fun g => decide (lowerStr g.ingredient ∈ pantry.map lowerStr))).map
        (fun g => g.quantity * priceLookup pricing g.ingredient g.unit)).sum :=
      lt_of_lt_of_le (mul_pos hgq hgpr) (List.single_le_sum hall _ hterm)
    linarith

/-- Witness for the amended C6: with one unit of "Salt" (price 5) excluded
by the pantry, the shopping cost (200) is strictly below the meal cost
(205). -/
theorem C6_witness :
    shopping_list_cost (shopping_list saltOneRecipes ["R"] (fun _ => 1) ["Salt"] saltPricing)
      < meal_cost saltPricing ["R"]
          (scaleLines (selectedLines saltOneRecipes ["R"]) (fun _ => 1)) := by
  have hscale : scaleLines (selectedLines saltOneRecipes ["R"]) (fun _ => 1)
      = saltOneRecipes := by
    simp +decide [scaleLines, selectedLines, saltOneRecipes]
  have hgroups : sortedGroups saltOneRecipes
      = [⟨"Pasta", "g", "Carbs", 100, ["R"]⟩, ⟨"Salt", "g", "Spices", 1, ["R"]⟩] := by
    have h1 : firstDedup (saltOneRecipes.map lineKey)
        = [("Salt", "g", "Spices"), ("Pasta", "g", "Carbs")] := by decide
    have h2 : sortBy keyLe
        [(("Salt", "g", "Spices") : String × String × String), ("Pasta", "g", "Carbs")]
        = [("Pasta", "g", "Carbs"), ("Salt", "g", "Spices")] := by decide
    have h3 : groupNames saltOneRecipes ("Pasta", "g", "Carbs") = ["R"] := by decide
    have h4 : groupNames saltOneRecipes ("Salt", "g", "Spices") = ["R"] := by decide
    have h5 : groupSum saltOneRecipes ("Pasta", "g", "Carbs") = 100 := by
      simp +decide [groupSum, saltOneRecipes, lineKey]
    have h6 : groupSum saltOneRecipes ("Salt", "g", "Spices") = 1 := by
      simp +decide [groupSum, saltOneRecipes, lineKey]
    have hgl : groupLines saltOneRecipes
        = [⟨"Pasta", "g", "Carbs", 100, ["R"]⟩, ⟨"Salt", "g", "Spices", 1, ["R"]⟩] := by
      unfold groupLines
      rw [h1, h2, List.map_cons, List.map_cons, List.map_nil, h3, h4, h5, h6]
    unfold sortedGroups
    rw [hgl]
    have hle : groupLe (⟨"Pasta", "g", "Carbs", 100, ["R"]⟩ : Group)
        ⟨"Salt", "g", "Spices", 1, ["R"]⟩ = true := by decide
    simp [sortBy, insertBy, hle]
  refine (C6_meal_cost_vs_shopping_cost saltOneRecipes ["R"] (fun _ => 1)
      ["Salt"] saltPricing (by simp)).2.2.2 ?_ ?_ ?_
  · rw [hscale]
    decide
  · decide
  · rw [hscale, hgroups]
    decide

/-- Claim C7: a key with no price-table entry looks up as 0.0 and its
shopping-list line is flagged as missing a price; matching is
case-insensitive equality on both ingredient and unit with no unit
normalization, so "g" and "grams" are distinct keys. -/
theorem C7_missing_price_and_matching
    (pricing : List PriceRow) (recipes : List RecipeLine)
    (selected : List String) (mult : String → ℚ) (pantry : List String)
    (ing u ing2 u2 : String) :
    (findPrice pricing ing u = none → priceLookup pricing ing u = 0)
    ∧ (∀ x ∈ shopping_list recipes selected mult pantry pricing,
        findPrice pricing x.ingredient x.unit = none →
          x ∈ items_without_price (shopping_list recipes selected mult pantry pricing))
    ∧ (lowerStr ing = lowerStr ing2 → lowerStr u = lowerStr u2 →
        findPrice pricing ing u = findPrice pricing ing2 u2)
    ∧ priceLookup [⟨"Flour", "grams", 3⟩] "Flour" "g" = 0
    ∧ priceLookup [] "Tomato" "item" = 0 := by
  refine ⟨?_, ?_, ?_, rfl, rfl⟩
  · intro h
    unfold priceLookup
    rw [h]
  · intro x hx hnone
    have hx' := hx
    rw [shopping_list_map] at hx'
    rcases List.mem_map.mp hx' with ⟨g, _, rfl⟩
    have hzero : priceLookup pricing g.ingredient g.unit = 0 := by
      unfold priceLookup
      rw [hnone]
    unfold items_without_price
    refine List.mem_filter.mpr ⟨hx, ?_⟩
    simpa using hzero
  · intro h1 h2
    unfold findPrice
    simp only [h1, h2]

/-- Witness for C7 at concrete inputs. -/
theorem C7_witness :
    (findPrice [] "Tomato" "item" = none) ∧ priceLookup [] "Tomato" "item" = 0 :=
  ⟨rfl,
    (C7_missing_price_and_matching [] [] [] (fun _ => 1) [] "Tomato" "item"
      "Tomato" "item").1 rfl⟩

/-- Claim C8: the recommendation score is the additive accumulation of the
rating block (rating × 10 when parseable, "rated" reason when ≥ 4), the
history block (+10 "never tried" with no matching rows; otherwise +15 when
more than 60 days since last cooked, −20 when fewer than 14, and an
independent +5 "favorite" when cooked at least 3 times) and the quick-meal
block (+5 when cook_time contains "15" or "20" as a substring); a recipe
rated "5" with no history scores 60, and an unrated recipe cooked 3 times
most recently 70 days ago scores 20. -/
theorem C8_recommendation_scoring
    (hist : List MealHistoryRow) (now : ℤ) (name : String)
    (rating : RatingField) (ct : String) :
    (scoreRecipe hist now name rating ct).1
        = (ratingContrib rating).1 + (historyContrib hist now name).1
          + (quickContrib ct).1
    ∧ (∀ v : ℚ, ratingContrib (RatingField.value v)
        = (v * 10, if 4 ≤ v then [Reason.rated v] else []))
    ∧ (hist.filter (fun h => h.recipe_name == name) = [] →
        historyContrib hist now name = (10, [Reason.neverTried]))
    ∧ (∀ rows : List MealHistoryRow,
        hist.filter (fun h => h.recipe_name == name) = rows → rows ≠ [] →
        historyContrib hist now name
          = historyCore rows.length (now - lastCooked rows))
    ∧ (∀ (times : ℕ) (days : ℤ), (historyCore times days).1
        = (if 60 < days then 15 else if days < 14 then -20 else 0)
          + (if 3 ≤ times then 5 else 0))
    ∧ (∀ (times : ℕ) (days : ℤ), 3 ≤ times →
        Reason.favorite times ∈ (historyCore times days).2)
    ∧ ((containsSub ct "15" || containsSub ct "20") = true →
        quickContrib ct = (5, [Reason.quickMeal]))
    ∧ ((containsSub ct "15" || containsSub ct "20") = false →
        quickContrib ct = (0, []))
    ∧ scoreRecipe [] now "Pasta" (RatingField.value 5) "30 mins"
        = (60, [Reason.rated 5, Reason.neverTried])
    ∧ (scoreRecipe (curryHistory now) now "Curry" RatingField.blank "").1 = 20 := by
  refine ⟨rfl, fun v => rfl, ?_, ?_, ?_, ?_, ?_, ?_, ?_, ?_⟩
  · intro hemp
    unfold historyContrib
    by_cases h : hist.isEmpty
    · rw [if_pos h]
    · rw [if_neg h]
      simp only [hemp, List.isEmpty_nil, if_pos rfl]
      simp
  · intro rows hrows hne
    unfold historyContrib
    have hhe : hist.isEmpty = false := by
      cases hist with
      | nil => simp at hrows; exact absurd hrows hne
      | cons a l => rfl
    rw [hhe]
    simp only [Bool.false_eq_true, if_false, hrows]
    rw [if_neg (by simpa [List.isEmpty_iff] using hne)]
  · intro times days
    unfold historyCore
    by_cases h1 : 60 < days
    · by_cases h3 : 3 ≤ times <;> simp [h1, h3]
    · by_cases h2 : days < 14
      · by_cases h3 : 3 ≤ times <;> simp [h1, h2, h3]
      · by_cases h3 : 3 ≤ times <;> simp [h1, h2, h3]
  · intro times days h3
    unfold historyCore
    by_cases h1 : 60 < days
    · simp [h1, h3]
    · by_cases h2 : days < 14 <;> simp [h1, h2, h3]
  · intro h
    unfold quickContrib
    rw [if_pos h]
  · intro h
    unfold quickContrib
    rw [if_neg (by simp [h])]
  · have hr : ratingContrib (RatingField.value 5) = (50, [Reason.rated 5]) := by
      unfold ratingContrib
      norm_num
    have hh : historyContrib [] now "Pasta" = (10, [Reason.neverTried]) := rfl
    have hcond : (containsSub "30 mins" "15" || containsSub "30 mins" "20") = false := by
      decide
    have hq : quickContrib "30 mins" = (0, []) := by
      unfold quickContrib
      rw [hcond]
      simp
    unfold scoreRecipe
    rw [hr, hh, hq]
    norm_num
  · have hrows : (curryHistory now).filter (fun h => h.recipe_name == "Curry")
        = curryHistory now := by
      simp +decide [curryHistory]
    have m1 : max (now - 70) (now - 80) = now - 70 := max_eq_left (by omega)
    have m2 : max (now - 70) (now - 90) = now - 70 := max_eq_left (by omega)
    have hlast : lastCooked (curryHistory now) = now - 70 := by
      simp [lastCooked, curryHistory, List.max?, m1, m2]
    have hlen : (curryHistory now).length = 3 := rfl
    have hhe : (curryHistory now).isEmpty = false := rfl
    have hne : curryHistory now ≠ [] := by simp [curryHistory]
    have hhist : historyContrib (curryHistory now) now "Curry" = historyCore 3 70 := by
      unfold historyContrib
      rw [hhe]
      simp only [Bool.false_eq_true, if_false, hrows]
      rw [if_neg (by simpa [List.isEmpty_iff] using hne), hlen, hlast]
      congr 1
      omega
    have hcore : (historyCore 3 70).1 = 20 := by
      unfold historyCore
      norm_num
    unfold scoreRecipe
    simp only [hhist]
    have hrq : (ratingContrib RatingField.blank).1 = 0 := rfl
    have hqq : (quickContrib "").1 = 0 := rfl
    rw [hrq, hqq, hcore]
    norm_num

/-- Witness for C8 at a concrete input. -/
theorem C8_witness :
    (([] : List MealHistoryRow).filter (fun h => h.recipe_name == "Pasta") = [])
    ∧ historyContrib [] 0 "Pasta" = (10, [Reason.neverTried]) :=
  ⟨rfl, (C8_recommendation_scoring [] 0 "Pasta" RatingField.blank "").2.2.1 rfl⟩

/-- Claim C9: the returned recommendation list is sorted by score in
descending order, the sort is stable — recipes with equal scores appear in
the order their names first occur in the recipe table — and at most the
first top_n entries are returned. -/
theorem C9_recommendations_sorted_stable_topn
    (recipes : List RecipeLine) (hist : List MealHistoryRow) (now : ℤ)
    (top_n : ℕ) :
    (get_recipe_recommendations recipes hist now top_n).Pairwise
        (fun a b => b.score ≤ a.score)
    ∧ (get_recipe_recommendations recipes hist now top_n).length ≤ top_n
    ∧ (get_recipe_recommendations recipes hist now top_n)
        <+: sortBy recLe (recommendationList recipes hist now)
    ∧ ∀ q : ℚ,
        (sortBy recLe (recommendationList recipes hist now)).filter
            (fun r => decide (r.score = q))
          = (recommendationList recipes hist now).filter
              (fun r => decide (r.score = q)) := by
  refine ⟨?_, ?_, ?_, fun q => sortBy_filter_score q _⟩
  · have hp := pairwise_sortBy recLe_total recLe_trans
      (recommendationList recipes hist now)
    have hp2 : (sortBy recLe (recommendationList recipes hist now)).Pairwise
        (fun a b => b.score ≤ a.score) := by
      refine hp.imp ?_
      intro a b h
      simpa [recLe] using h
    exact hp2.sublist (List.take_sublist top_n _)
  · exact List.length_take_le top_n _
  · exact List.take_prefix top_n _

/-- Claim C10: a non-empty rating that does not parse as a number adds no
rating contribution and no rating reason, raises no error, and leaves the
rest of the score exactly as for an unrated recipe. -/
theorem C10_unparsable_rating_ignored :
    ∀ (s : String) (hist : List MealHistoryRow) (now : ℤ) (name ct : String),
      ratingContrib (RatingField.invalid s) = (0, [])
      ∧ scoreRecipe hist now name (RatingField.invalid s) ct
          = scoreRecipe hist now name RatingField.blank ct :=
  fun _ _ _ _ _ => ⟨rfl, rfl⟩

end Claims

end Rezipee
